import Mathlib

/-!
# LocalFlow task-processing platform: a shallow embedding of the queue core

This file embeds the SQLite-backed task queue of the LocalFlow repository
(`internal/queue/sqlite.go`), the worker pool's backoff policy
(`internal/worker`), and the schedule activator (`internal/scheduler/service.go`)
as pure Lean functions over an explicit store state, and proves (or refutes)
the specification's claims about them.

Modelling conventions:
* Wall-clock times are `Int` seconds (SQLite stores DATETIME; comparisons and
  `datetime(CURRENT_TIMESTAMP, '+N seconds')` arithmetic are second-granular).
* The store is a record of three lists mirroring the `tasks`, `task_attempts`
  and `schedules` tables, in rowid (insertion) order.
* Go's `nil` error is `Option.none`; a non-nil error carries its message.
* Task `state` is a `String`, exactly as in `domain.Task` (the zero value of a
  Go `Task` has the empty string as its state).
* Fresh ids (`uuid.NewString`) are passed in explicitly.
-/

namespace LocalFlow

/-- A row of the `tasks` table / the Go `domain.Task` struct. -/
structure Task where
  id : String
  type : String
  payload : List Nat
  priority : Int
  attempts : Int
  maxAttempts : Int
  state : String
  nextRunAt : Int
  visibilityTimeout : Int
  idempotencyKey : Option String
  createdAt : Int
  updatedAt : Int
deriving DecidableEq, Repr

/-- The zero value `domain.Task{}` of the Go struct. -/
def Task.zero : Task :=
  { id := "", type := "", payload := [], priority := 0, attempts := 0,
    maxAttempts := 0, state := "", nextRunAt := 0, visibilityTimeout := 0,
    idempotencyKey := none, createdAt := 0, updatedAt := 0 }

/-- A row of the append-only `task_attempts` table. -/
structure Attempt where
  taskId : String
  success : Bool
  error : String
  finishedAt : Int
deriving DecidableEq, Repr

/-- A row of the `schedules` table / the Go `domain.Schedule` struct. -/
structure Schedule where
  id : String
  name : String
  cronExpr : String
  taskType : String
  payload : List Nat
  priority : Int
  maxAttempts : Int
  enabled : Bool
  lastRun : Option Int
  nextRun : Int
  createdAt : Int
  updatedAt : Int
deriving DecidableEq, Repr

/-- The durable state: the three tables, each in rowid (insertion) order. -/
structure Store where
  tasks : List Task
  attempts : List Attempt
  schedules : List Schedule
deriving DecidableEq, Repr

/-- The error `queue.ErrEmpty = errors.New("no tasks ready")` declared at the
top of `sqlite.go`. -/
def errEmpty : String := "no tasks ready"

/-- `SELECT id FROM tasks WHERE idempotency_key = ?`: the first row (in rowid
order) whose idempotency key equals the given non-null key. -/
def findByKey (tasks : List Task) (k : String) : Option Task :=
  tasks.find? (fun u => decide (u.idempotencyKey = some k))

/-- `sqliteRepo.Enqueue`: applies the zero-value defaults (priority 5,
max_attempts 5, visibility_timeout 60), returns the existing task's id with no
write when the draft's idempotency key is non-null and already present, and
otherwise inserts a fresh `queued` row with `attempts = 0` and
`next_run_at = CURRENT_TIMESTAMP`. `freshId` stands for `"tsk_" + uuid`. -/
def Enqueue (st : Store) (now : Int) (freshId : String) (t : Task) :
    String × Store :=
  let id := if t.id = "" then freshId else t.id
  let pr := if t.priority = 0 then 5 else t.priority
  let ma := if t.maxAttempts = 0 then 5 else t.maxAttempts
  let vt := if t.visibilityTimeout = 0 then 60 else t.visibilityTimeout
  let ins : Store :=
    { st with tasks := st.tasks ++
        [{ id := id, type := t.type, payload := t.payload, priority := pr,
           attempts := 0, maxAttempts := ma, state := "queued",
           nextRunAt := now, visibilityTimeout := vt,
           idempotencyKey := t.idempotencyKey,
           createdAt := now, updatedAt := now }] }
  match t.idempotencyKey with
  | some k =>
      match findByKey st.tasks k with
      | some ex => (ex.id, st)
      | none => (id, ins)
  | none => (id, ins)

/-- The `WHERE state='queued' AND next_run_at <= ?` filter of `LeaseNext`. -/
def ready (now : Int) (t : Task) : Bool :=
  decide (t.state = "queued") && decide (t.nextRunAt ≤ now)

/-- `a` strictly precedes `b` under `ORDER BY priority DESC, created_at ASC`. -/
def better (a b : Task) : Prop :=
  b.priority < a.priority ∨ (a.priority = b.priority ∧ a.createdAt < b.createdAt)

instance (a b : Task) : Decidable (better a b) := by
  unfold better; infer_instance

/-- The row produced by `ORDER BY priority DESC, created_at ASC LIMIT 1`:
a minimal row under `better`, scanning in rowid order so that the earliest
inserted of any tied rows is kept. -/
def pickMin : List Task → Option Task
  | [] => none
  | t :: ts =>
      match pickMin ts with
      | none => some t
      | some u => if better u t then some u else some t

/-- `sqliteRepo.LeaseNext`: selects the ready row that is first under the
order, marks it `running` (updating `updated_at`), and returns the
pre-transition snapshot together with `lease_until = now + visibility_timeout`.
When no row matches, the transaction is rolled back and the function returns
the zero task and `tx.Rollback()`'s result — which is `nil` — as the error. -/
def LeaseNext (st : Store) (now : Int) :
    (Task × Int × Option String) × Store :=
  match pickMin (st.tasks.filter (ready now)) with
  | none => ((Task.zero, 0, none), st)
  | some t =>
      let leaseUntil := now + t.visibilityTimeout
      let tasks := st.tasks.map (fun u =>
        if u.id = t.id then { u with state := "running", updatedAt := now } else u)
      ((t, leaseUntil, none), { st with tasks := tasks })

/-- `sqliteRepo.Retry`: appends a failure attempt row, then updates the row
with the given id: `attempts + 1`, state `failed` when
`attempts + 1 >= max_attempts` (evaluated on the pre-update row, as SQL `SET`
does) and `queued` otherwise, and
`next_run_at = datetime(CURRENT_TIMESTAMP, '+delay seconds')`. -/
def Retry (st : Store) (now : Int) (id errStr : String) (delaySec : Int) :
    Store :=
  { st with
    attempts := st.attempts ++ [⟨id, false, errStr, now⟩],
    tasks := st.tasks.map (fun t =>
      if t.id = id then
        { t with
          attempts := t.attempts + 1,
          state := if t.attempts + 1 ≥ t.maxAttempts then "failed" else "queued",
          nextRunAt := now + delaySec,
          updatedAt := now }
      else t) }

/-- `sqliteRepo.Succeed`: appends a success attempt row and sets the row's
state to `succeeded`. -/
def Succeed (st : Store) (now : Int) (id : String) : Store :=
  { st with
    attempts := st.attempts ++ [⟨id, true, "", now⟩],
    tasks := st.tasks.map (fun t =>
      if t.id = id then { t with state := "succeeded", updatedAt := now } else t) }

/-- `sqliteRepo.Fail`: appends a failure attempt row and sets the row's state
to `failed`; the `delay` argument is not used by the body. -/
def Fail (st : Store) (now : Int) (id errStr : String) (delaySec : Int) :
    Store :=
  let _ := delaySec
  { st with
    attempts := st.attempts ++ [⟨id, false, errStr, now⟩],
    tasks := st.tasks.map (fun t =>
      if t.id = id then { t with state := "failed", updatedAt := now } else t) }

/-- The `WHERE state='running' AND strftime now - updated_at > visibility_timeout`
condition of `RecoverStale`. -/
def stale (now : Int) (t : Task) : Bool :=
  decide (t.state = "running") && decide (now - t.updatedAt > t.visibilityTimeout)

/-- One pass over the `tasks` table applying `RecoverStale`'s UPDATE and
counting the affected rows (`RowsAffected`). -/
def recoverPass (now : Int) : List Task → Nat × List Task
  | [] => (0, [])
  | t :: ts =>
      let (n, ts') := recoverPass now ts
      if stale now t then
        (n + 1, { t with state := "queued", nextRunAt := now, updatedAt := now } :: ts')
      else (n, t :: ts')

/-- `sqliteRepo.RecoverStale`: re-queues every running row whose lease has
expired, setting `next_run_at = CURRENT_TIMESTAMP`, and returns the number of
rows affected. -/
def RecoverStale (st : Store) (now : Int) : Nat × Store :=
  let (n, ts) := recoverPass now st.tasks
  (n, { st with tasks := ts })

/-- `sqliteRepo.Get`: `SELECT ... FROM tasks WHERE id=?` (first row in rowid
order with the given primary key). -/
def Get (st : Store) (id : String) : Option Task :=
  st.tasks.find? (fun t => decide (t.id = id))

/-- The `WHERE enabled=1 AND next_run <= ?` filter of `GetDueSchedules`. -/
def due (now : Int) (s : Schedule) : Bool :=
  s.enabled && decide (s.nextRun ≤ now)

/-- Insertion step of the `ORDER BY next_run` sort (stable). -/
def insertByNextRun (s : Schedule) : List Schedule → List Schedule
  | [] => [s]
  | u :: us =>
      if u.nextRun ≤ s.nextRun then u :: insertByNextRun s us else s :: u :: us

/-- `ORDER BY next_run` as a stable insertion sort. -/
def sortByNextRun : List Schedule → List Schedule
  | [] => []
  | s :: ss => insertByNextRun s (sortByNextRun ss)

/-- `sqliteRepo.GetDueSchedules`: the enabled schedules whose `next_run` has
passed, in ascending `next_run` order. -/
def GetDueSchedules (st : Store) (now : Int) : List Schedule :=
  sortByNextRun (st.schedules.filter (due now))

/-- `sqliteRepo.UpdateScheduleLastRun`: sets `last_run` and `next_run` on the
schedule row with the given id. -/
def UpdateScheduleLastRun (st : Store) (now : Int) (id : String)
    (lastRun nextRun : Int) : Store :=
  { st with schedules := st.schedules.map (fun u =>
      if u.id = id then { u with lastRun := some lastRun, nextRun := nextRun, updatedAt := now } else u) }

/-- `Service.processSchedule`: parse the cron expression (`cronParse` stands
for `cron.ParseStandard`; `none` is a parse error, which aborts without
enqueueing), enqueue a task built from the schedule's type, payload, priority
and max_attempts, then advance `last_run`/`next_run`. Returns the enqueued
task's id when one was enqueued. -/
def processSchedule (cronParse : String → Option (Int → Int))
    (freshId : String) (st : Store) (sch : Schedule) (now : Int) :
    Store × Option String :=
  match cronParse sch.cronExpr with
  | none => (st, none)
  | some next =>
      let draft : Task :=
        { Task.zero with
          type := sch.taskType, payload := sch.payload,
          priority := sch.priority, maxAttempts := sch.maxAttempts }
      let (taskId, st1) := Enqueue st now freshId draft
      let st2 := UpdateScheduleLastRun st1 now sch.id now (next now)
      (st2, some taskId)

/-- The per-schedule loop of `Service.processDueSchedules`, also recording,
as the logging in the source does, which schedule each enqueued task came
from. `ids` supplies the fresh task ids. -/
def processLoop (cronParse : String → Option (Int → Int)) :
    List String → Store → Int → List Schedule → Store × List (Schedule × String)
  | _, st, _, [] => (st, [])
  | ids, st, now, sch :: rest =>
      match processSchedule cronParse (ids.headD "") st sch now with
      | (st1, some tid) =>
          ((processLoop cronParse ids.tail st1 now rest).1,
           (sch, tid) :: (processLoop cronParse ids.tail st1 now rest).2)
      | (st1, none) => processLoop cronParse ids.tail st1 now rest

/-- `Service.processDueSchedules`: one activator tick — fetch the due
schedules, then process each in order. -/
def processDueSchedules (cronParse : String → Option (Int → Int))
    (ids : List String) (st : Store) (now : Int) :
    Store × List (Schedule × String) :=
  processLoop cronParse ids st now (GetDueSchedules st now)

/-- Two's-complement reading of a Go 64-bit `int` bit pattern. -/
def toInt64 (n : Nat) : Int :=
  if n % 2 ^ 64 < 2 ^ 63 then (n % 2 ^ 64 : Int) else (n % 2 ^ 64 : Int) - 2 ^ 64

/-- `worker.backoffExp`: `1s` for `attempts <= 0`, otherwise
`d := 1 << (attempts-1)` (64-bit), capped at 60. Result in seconds. -/
def backoffExp (attempts : Int) : Int :=
  if attempts ≤ 0 then 1
  else
    let d := toInt64 (2 ^ (attempts - 1).toNat)
    if d > 60 then 60 else d

/-! ## Concrete stores used to exercise the operations -/

/-- A queued task with the schema defaults, parameterised by id, priority and
creation time. -/
def demoTask (id : String) (pri created : Int) : Task :=
  { id := id, type := "noop", payload := [], priority := pri, attempts := 0,
    maxAttempts := 5, state := "queued", nextRunAt := 0, visibilityTimeout := 60,
    idempotencyKey := none, createdAt := created, updatedAt := created }

/-- Three tasks already in the three terminal states. -/
def terminalStore : Store :=
  { tasks := [{ demoTask "a" 5 0 with state := "succeeded" },
              { demoTask "b" 5 0 with state := "failed" },
              { demoTask "c" 5 0 with state := "canceled" }],
    attempts := [], schedules := [] }

/-- A store whose single task is queued but not yet due at time 5. -/
def notReadyStore : Store :=
  { tasks := [{ demoTask "x" 5 0 with nextRunAt := 100 }],
    attempts := [], schedules := [] }

/-- Happy path: enqueue a fresh `noop` task, lease it, ack success. -/
def happyEnqueued : Store :=
  (Enqueue { tasks := [], attempts := [], schedules := [] } 0 "tsk_1"
    { Task.zero with type := "noop" }).2

def happyLeased : Store := (LeaseNext happyEnqueued 0).2

def happyDone : Store := Succeed happyLeased 1 "tsk_1"

/-- Retry budget: a task with `max_attempts = 3` whose every execution is
retried, the store after 0, 1, 2 and 3 lease/retry rounds. -/
def budget0 : Store :=
  (Enqueue { tasks := [], attempts := [], schedules := [] } 0 "t"
    { Task.zero with type := "x", maxAttempts := 3 }).2

def budget1 : Store := Retry (LeaseNext budget0 0).2 0 "t" "boom" 0

def budget2 : Store := Retry (LeaseNext budget1 1).2 1 "t" "boom" 0

def budget3 : Store := Retry (LeaseNext budget2 2).2 2 "t" "boom" 0

/-- The task row `budget0` holds right after the enqueue. -/
def budgetTask : Task :=
  { id := "t", type := "x", payload := [], priority := 5, attempts := 0,
    maxAttempts := 3, state := "queued", nextRunAt := 0, visibilityTimeout := 60,
    idempotencyKey := none, createdAt := 0, updatedAt := 0 }

/-- The ordering scenario: A(priority 3, created 0), B(5, 1), C(5, 2). -/
def orderStore : Store :=
  { tasks := [demoTask "A" 3 0, demoTask "B" 5 1, demoTask "C" 5 2],
    attempts := [], schedules := [] }

/-- An existing task carrying idempotency key `k1`. -/
def keyedTask : Task := { demoTask "orig" 5 0 with idempotencyKey := some "k1" }

def keyedStore : Store := { tasks := [keyedTask], attempts := [], schedules := [] }

/-- A second draft carrying the same idempotency key `k1`. -/
def keyedDraft : Task := { Task.zero with type := "noop", idempotencyKey := some "k1" }

/-- A disabled schedule whose `next_run` is long past. -/
def disabledSched : Schedule :=
  { id := "s1", name := "n", cronExpr := "* * * * *", taskType := "noop",
    payload := [], priority := 5, maxAttempts := 5, enabled := false,
    lastRun := none, nextRun := 0, createdAt := 0, updatedAt := 0 }

def disabledStore : Store :=
  { tasks := [], attempts := [], schedules := [disabledSched] }

/-- A cron semantics where every expression parses and fires every minute. -/
def everyMinute : String → Option (Int → Int) := fun _ => some (fun t => t + 60)

/-! ## Helper lemmas -/

/-- Looking up a primary key commutes with an UPDATE ... WHERE id = ? that
does not change the id column. -/
theorem find?_update_id (id : String) (g : Task → Task)
    (hg : ∀ t, (g t).id = t.id) :
    ∀ l : List Task,
      (l.map (fun t => if t.id = id then g t else t)).find?
          (fun t => decide (t.id = id))
        = (l.find? (fun t => decide (t.id = id))).map g := by
  intro l
  induction l with
  | nil => rfl
  | cons t ts ih =>
      by_cases h : t.id = id
      · simp [List.find?_cons, h, hg]
      · simp [List.find?_cons, h, ih]

/-- The lease order is irreflexive. -/
theorem better_irrefl (a : Task) : ¬ better a a := by
  unfold better; omega

/-- The lease order is asymmetric. -/
theorem better_asymm (a b : Task) : better a b → ¬ better b a := by
  unfold better; omega

/-- `pickMin` only returns elements of its input. -/
theorem pickMin_mem : ∀ {l : List Task} {u : Task}, pickMin l = some u → u ∈ l := by
  intro l
  induction l with
  | nil => intro u h; simp [pickMin] at h
  | cons t ts ih =>
      intro u h
      unfold pickMin at h
      split at h
      · have ht : t = u := Option.some.inj h
        subst ht
        exact List.mem_cons_self t ts
      · rename_i v hp
        split at h
        · have hv : v = u := Option.some.inj h
          subst hv
          exact List.mem_cons_of_mem t (ih hp)
        · have ht : t = u := Option.some.inj h
          subst ht
          exact List.mem_cons_self t ts

/-- When one element strictly precedes every other element of the list in the
lease order, `pickMin` returns it. -/
theorem pickMin_eq_of_unique (t : Task) :
    ∀ l : List Task, t ∈ l → (∀ u ∈ l, u ≠ t → better t u) →
      pickMin l = some t := by
  intro l
  induction l with
  | nil => intro hmem _; cases hmem
  | cons x xs ih =>
      intro hmem hall
      unfold pickMin
      rcases List.mem_cons.mp hmem with hx | hxs
      · subst hx
        split
        · rfl
        · rename_i v hp
          have hv : v ∈ xs := pickMin_mem hp
          by_cases hvt : v = t
          · rw [hvt, if_neg (better_irrefl t)]
          · rw [if_neg (better_asymm t v
              (hall v (List.mem_cons_of_mem t hv) hvt))]
      · have hxst : pickMin xs = some t :=
          ih hxs (fun u hu hut => hall u (List.mem_cons_of_mem x hu) hut)
        split
        · rename_i hp
          rw [hxst] at hp
          cases hp
        · rename_i v hp
          rw [hxst] at hp
          have hv : t = v := Option.some.inj hp
          rw [← hv]
          by_cases hxt : x = t
          · rw [hxt, if_neg (better_irrefl t)]
          · rw [if_pos (hall x (List.mem_cons_self x xs) hxt)]

/-- `recoverPass` counts the stale rows and rewrites exactly them. -/
theorem recoverPass_eq (now : Int) :
    ∀ l : List Task,
      recoverPass now l =
        (l.countP (stale now),
         l.map (fun t =>
           if stale now t then
             { t with state := "queued", nextRunAt := now, updatedAt := now }
           else t)) := by
  intro l
  induction l with
  | nil => simp [recoverPass]
  | cons t ts ih =>
      unfold recoverPass
      rw [ih]
      by_cases h : stale now t
      · simp [h, List.countP_cons]
      · simp [h, List.countP_cons]

/-- Membership in the insertion step of the schedule sort. -/
theorem mem_insertByNextRun (x s : Schedule) :
    ∀ l : List Schedule, x ∈ insertByNextRun s l ↔ x = s ∨ x ∈ l := by
  intro l
  induction l with
  | nil => simp [insertByNextRun]
  | cons u us ih =>
      unfold insertByNextRun
      by_cases h : u.nextRun ≤ s.nextRun
      · rw [if_pos h]
        simp [ih]
        tauto
      · rw [if_neg h]
        simp

/-- The schedule sort does not change membership. -/
theorem mem_sortByNextRun (x : Schedule) :
    ∀ l : List Schedule, x ∈ sortByNextRun l ↔ x ∈ l := by
  intro l
  induction l with
  | nil => simp [sortByNextRun]
  | cons s ss ih =>
      unfold sortByNextRun
      rw [mem_insertByNextRun, ih]
      simp

/-- Every schedule returned by `GetDueSchedules` is enabled. -/
theorem enabled_of_mem_due (st : Store) (now : Int) :
    ∀ s ∈ GetDueSchedules st now, s.enabled = true := by
  intro s hs
  have hmem : s ∈ st.schedules.filter (due now) :=
    (mem_sortByNextRun s _).mp hs
  have hdue : due now s = true := List.of_mem_filter hmem
  unfold due at hdue
  exact (Bool.and_eq_true _ _ |>.mp hdue).1

/-- Every (schedule, task id) pair recorded by the activator loop comes from
the list of schedules it was given. -/
theorem processLoop_source (cronParse : String → Option (Int → Int)) :
    ∀ (ds : List Schedule) (ids : List String) (st : Store) (now : Int)
      (sch : Schedule) (tid : String),
      (sch, tid) ∈ (processLoop cronParse ids st now ds).2 → sch ∈ ds := by
  intro ds
  induction ds with
  | nil => intro ids st now sch tid h; simp [processLoop] at h
  | cons d rest ih =>
      intro ids st now sch tid h
      unfold processLoop at h
      cases hps : processSchedule cronParse (ids.headD "") st d now with
      | mk st1 tid? =>
          rw [hps] at h
          cases tid? with
          | some tid0 =>
              simp at h
              rcases h with ⟨hsch, _⟩ | hmem
              · simp [hsch]
              · exact List.mem_cons_of_mem d (ih _ _ _ _ _ hmem)
          | none => exact List.mem_cons_of_mem d (ih _ _ _ _ _ h)

/-- Lookup of a task after `Retry` on its id. -/
theorem Get_Retry (st : Store) (now : Int) (id errStr : String)
    (delaySec : Int) :
    Get (Retry st now id errStr delaySec) id
      = (Get st id).map (fun t =>
          { t with
            attempts := t.attempts + 1,
            state := if t.attempts + 1 ≥ t.maxAttempts then "failed" else "queued",
            nextRunAt := now + delaySec,
            updatedAt := now }) := by
  unfold Get Retry
  exact find?_update_id id
    (fun t =>
      { t with
        attempts := t.attempts + 1,
        state := if t.attempts + 1 ≥ t.maxAttempts then "failed" else "queued",
        nextRunAt := now + delaySec,
        updatedAt := now })
    (fun t => rfl) st.tasks

/-- Lookup of a task after `Fail` on its id. -/
theorem Get_Fail (st : Store) (now : Int) (id errStr : String)
    (delaySec : Int) :
    Get (Fail st now id errStr delaySec) id
      = (Get st id).map (fun t => { t with state := "failed", updatedAt := now }) := by
  unfold Get Fail
  exact find?_update_id id
    (fun t => { t with state := "failed", updatedAt := now })
    (fun t => rfl) st.tasks

/-- Lookup of a task after `Succeed` on its id. -/
theorem Get_Succeed (st : Store) (now : Int) (id : String) :
    Get (Succeed st now id) id
      = (Get st id).map (fun t => { t with state := "succeeded", updatedAt := now }) := by
  unfold Get Succeed
  exact find?_update_id id
    (fun t => { t with state := "succeeded", updatedAt := now })
    (fun t => rfl) st.tasks

/-! ## Claim theorems -/

/-- C1: the claimed terminal absorption fails on the code. `Retry`, `Succeed`
and `Fail` update `WHERE id = ?` with no state guard, so calling them on a
task in a terminal state does mutate it: `Retry` on a succeeded task
re-queues it and increments `attempts`; `Succeed` on a failed task marks it
succeeded; `Fail` on a succeeded task marks it failed; `Retry` on a canceled
task re-queues it. -/
theorem acks_mutate_terminal_states :
    (Get (Retry terminalStore 7 "a" "e" 1) "a").map
        (fun u => (u.state, u.attempts, u.nextRunAt)) = some ("queued", 1, 8)
  ∧ (Get (Succeed terminalStore 7 "b") "b").map Task.state = some "succeeded"
  ∧ (Get (Fail terminalStore 7 "a" "e" 0) "a").map Task.state = some "failed"
  ∧ (Get (Retry terminalStore 7 "c" "e" 1) "c").map Task.state = some "queued" := by
  decide

/-- C2: when no task is ready, `LeaseNext` rolls the transaction back and
returns the rollback's result — `nil` — as its error, together with the zero
task, instead of the declared distinguished `ErrEmpty`; the caller cannot
tell this outcome from a successful lease by the error value. The store is
unchanged. -/
theorem leaseNext_no_ready_returns_nil_error :
    LeaseNext notReadyStore 5 = ((Task.zero, 0, none), notReadyStore)
  ∧ (LeaseNext notReadyStore 5).1.2.2 ≠ some errEmpty := by
  decide

/-- C3: the claimed `attempts = 1` after a first successful execution fails
on the code. `Succeed` appends a success attempt row but never increments the
`attempts` counter, so the happy-path task ends `succeeded` with
`attempts = 0`. -/
theorem succeed_leaves_attempts_zero :
    (Get happyDone "tsk_1").map (fun u => (u.state, u.attempts))
        = some ("succeeded", 0)
  ∧ happyDone.attempts.map (fun a => (a.taskId, a.success)) = [("tsk_1", true)] := by
  decide

/-- C4: `Retry` appends exactly one failure attempt row and increments
`attempts` by one; the task moves to terminal `failed` when the incremented
count reaches `max_attempts` and otherwise returns to `queued` with
`next_run_at = now + delay`; and a task with `max_attempts = 3` that is
retried on every execution ends `failed` with exactly three failure attempt
rows. -/
theorem retry_transition_and_budget :
    (∀ (st : Store) (now : Int) (id e : String) (delay : Int) (t : Task),
        Get st id = some t →
        t.state ≠ "succeeded" → t.state ≠ "failed" → t.state ≠ "canceled" →
        Get (Retry st now id e delay) id
            = some { t with
                attempts := t.attempts + 1,
                state := if t.attempts + 1 ≥ t.maxAttempts then "failed" else "queued",
                nextRunAt := now + delay,
                updatedAt := now }
          ∧ (Retry st now id e delay).attempts = st.attempts ++ [⟨id, false, e, now⟩])
  ∧ (Get budget3 "t").map (fun u => (u.state, u.attempts)) = some ("failed", 3)
  ∧ budget3.attempts.map (fun a => (a.taskId, a.success, a.error))
      = [("t", false, "boom"), ("t", false, "boom"), ("t", false, "boom")] := by
  refine ⟨?_, by decide, by decide⟩
  intro st now id e delay t hget _ _ _
  refine ⟨?_, rfl⟩
  rw [Get_Retry, hget]
  rfl

/-- C4 witness: the first retry of the freshly enqueued budget task. -/
theorem retry_transition_and_budget_witness :
    Get (Retry budget0 5 "t" "boom" 2) "t"
        = some { budgetTask with
            attempts := budgetTask.attempts + 1,
            state := if budgetTask.attempts + 1 ≥ budgetTask.maxAttempts then "failed" else "queued",
            nextRunAt := 5 + 2,
            updatedAt := 5 }
      ∧ (Retry budget0 5 "t" "boom" 2).attempts
          = budget0.attempts ++ [⟨"t", false, "boom", 5⟩] :=
  retry_transition_and_budget.1 budget0 5 "t" "boom" 2 budgetTask
    (by decide) (by decide) (by decide) (by decide)

/-- C5: when a ready task strictly precedes every other ready task under
(priority DESC, created_at ASC), `LeaseNext` returns exactly that task as a
pre-transition snapshot with `lease_until = now + visibility_timeout`, and
marks exactly the rows with its id `running`; and on the concrete store with
A(priority 3, created 0), B(5, 1), C(5, 2) three successive calls lease B,
then C, then A, the first returning B's stored row and lease time 70. -/
theorem leaseNext_selects_unique_min :
    (∀ (st : Store) (now : Int) (t : Task),
        t ∈ st.tasks → ready now t = true →
        (∀ u ∈ st.tasks, u ≠ t → ready now u = true → better t u) →
        LeaseNext st now
          = ((t, now + t.visibilityTimeout, none),
             { st with tasks := st.tasks.map (fun u =>
                 if u.id = t.id then { u with state := "running", updatedAt := now }
                 else u) }))
  ∧ (LeaseNext orderStore 10).1 = (demoTask "B" 5 1, 70, none)
  ∧ (LeaseNext (LeaseNext orderStore 10).2 10).1.1.id = "C"
  ∧ (LeaseNext (LeaseNext (LeaseNext orderStore 10).2 10).2 10).1.1.id = "A" := by
  refine ⟨?_, by decide, by decide, by decide⟩
  intro st now t ht hr hu
  have hp : pickMin (st.tasks.filter (ready now)) = some t := by
    apply pickMin_eq_of_unique
    · exact List.mem_filter.mpr ⟨ht, hr⟩
    · intro u hu' hut
      rcases List.mem_filter.mp hu' with ⟨hmem, hready⟩
      exact hu u hmem hut hready
  unfold LeaseNext
  split
  · rename_i heq
    rw [hp] at heq
    cases heq
  · rename_i v heq
    rw [hp] at heq
    have hv : t = v := Option.some.inj heq
    subst hv
    rfl

/-- C5 witness: on the concrete A/B/C store, task B is the unique minimum at
time 10, so `LeaseNext` leases it. -/
theorem leaseNext_selects_unique_min_witness :
    LeaseNext orderStore 10
      = ((demoTask "B" 5 1, 10 + (demoTask "B" 5 1).visibilityTimeout, none),
         { orderStore with tasks := orderStore.tasks.map (fun u =>
             if u.id = (demoTask "B" 5 1).id then
               { u with state := "running", updatedAt := 10 }
             else u) }) :=
  leaseNext_selects_unique_min.1 orderStore 10 (demoTask "B" 5 1)
    (by decide) (by decide) (by decide)

/-- C6: when the draft carries a non-null idempotency key that an existing
task already holds, `Enqueue` returns the existing task's id and leaves the
store untouched, so exactly one row with that key exists afterwards and the
existing task's state, attempts and next_run_at are unchanged. -/
theorem enqueue_idempotent_key (st : Store) (now : Int) (fid : String)
    (d : Task) (k : String) (ex : Task)
    (hk : d.idempotencyKey = some k)
    (hfind : findByKey st.tasks k = some ex)
    (hcount : (st.tasks.filter
        (fun u => decide (u.idempotencyKey = some k))).length = 1) :
    Enqueue st now fid d = (ex.id, st)
    ∧ ((Enqueue st now fid d).2.tasks.filter
        (fun u => decide (u.idempotencyKey = some k))).length = 1 := by
  have h1 : Enqueue st now fid d = (ex.id, st) := by
    simp only [Enqueue, hk, hfind]
  exact ⟨h1, by rw [h1]; exact hcount⟩

/-- C6 witness: resubmitting key `k1` returns the original id `orig` with the
store unchanged. -/
theorem enqueue_idempotent_key_witness :
    Enqueue keyedStore 9 "tsk_new" keyedDraft = (keyedTask.id, keyedStore)
    ∧ ((Enqueue keyedStore 9 "tsk_new" keyedDraft).2.tasks.filter
        (fun u => decide (u.idempotencyKey = some "k1"))).length = 1 :=
  enqueue_idempotent_key keyedStore 9 "tsk_new" keyedDraft "k1" keyedTask
    (by decide) (by decide) (by decide)

/-- C7: `RecoverStale` re-queues, with `next_run_at = now`, exactly the
running rows whose elapsed time since `updated_at` strictly exceeds their
visibility timeout, returns their count, leaves every other field of the
affected rows (in particular `attempts`) and every other row unchanged, and
touches neither the attempts log nor the schedules. -/
theorem recoverStale_requeues_exactly_stale :
    ∀ (st : Store) (now : Int),
      RecoverStale st now
        = (st.tasks.countP (stale now),
           { st with tasks := st.tasks.map (fun t =>
               if stale now t then
                 { t with state := "queued", nextRunAt := now, updatedAt := now }
               else t) }) := by
  intro st now
  unfold RecoverStale
  rw [recoverPass_eq]

/-- C8: the worker pool's backoff is `min(2^(attempts-1), 60)` seconds over
the whole range where the 64-bit shift does not wrap, the first retry
(pre-increment attempts 0) waits 1 second, and attempts 1..10 yield
1, 2, 4, 8, 16, 32, 60, 60, 60, 60 seconds. -/
theorem backoffExp_min_cap :
    (∀ a : Int, 1 ≤ a → a ≤ 63 →
        backoffExp a = min (2 ^ (a - 1).toNat) 60)
  ∧ backoffExp 0 = 1
  ∧ (List.range 10).map (fun i => backoffExp ((i : Int) + 1))
      = [1, 2, 4, 8, 16, 32, 60, 60, 60, 60] := by
  refine ⟨?_, by decide, by decide⟩
  intro a h1 h2
  interval_cases a <;> decide

/-- C8 witness: the seventh attempt's backoff is capped. -/
theorem backoffExp_min_cap_witness :
    (1 : Int) ≤ 7 ∧ backoffExp 7 = min (2 ^ ((7 : Int) - 1).toNat) 60 :=
  ⟨by decide, backoffExp_min_cap.1 7 (by decide) (by decide)⟩

/-- C9: a disabled schedule is never returned by `GetDueSchedules`, whatever
its `next_run`, and an activator tick (`processDueSchedules`) never enqueues
a task for it, under any cron semantics and fresh-id supply. -/
theorem disabled_schedules_never_enqueued
    (cronParse : String → Option (Int → Int)) (ids : List String)
    (st : Store) (now : Int) (sch : Schedule)
    (hdis : sch.enabled = false) :
    sch ∉ GetDueSchedules st now
    ∧ ∀ tid, (sch, tid) ∉ (processDueSchedules cronParse ids st now).2 := by
  have hnot : sch ∉ GetDueSchedules st now := by
    intro hmem
    have h := enabled_of_mem_due st now sch hmem
    rw [hdis] at h
    cases h
  refine ⟨hnot, ?_⟩
  intro tid hmem
  exact hnot (processLoop_source cronParse (GetDueSchedules st now)
    ids st now sch tid hmem)

/-- C9 witness: the concrete disabled schedule with a long-past `next_run` is
not due at time 100 and the tick enqueues nothing for it. -/
theorem disabled_schedules_never_enqueued_witness :
    disabledSched ∉ GetDueSchedules disabledStore 100
    ∧ (disabledSched, "tsk_a")
        ∉ (processDueSchedules everyMinute ["tsk_a"] disabledStore 100).2 :=
  ⟨(disabled_schedules_never_enqueued everyMinute ["tsk_a"] disabledStore 100
      disabledSched rfl).1,
   (disabled_schedules_never_enqueued everyMinute ["tsk_a"] disabledStore 100
      disabledSched rfl).2 "tsk_a"⟩

/-- C10: `Fail` ignores its delay argument — its effect is identical for
every delay value — appends exactly one failure attempt row, sets the task's
state to `failed` updating only `state` and `updated_at` (so the `attempts`
counter and `next_run_at` are unchanged), and leaves the schedules alone. -/
theorem fail_terminal_ignores_delay :
    ∀ (st : Store) (now : Int) (id e : String) (d d' : Int),
      Fail st now id e d = Fail st now id e d'
      ∧ (Fail st now id e d).attempts = st.attempts ++ [⟨id, false, e, now⟩]
      ∧ Get (Fail st now id e d) id
          = (Get st id).map (fun t => { t with state := "failed", updatedAt := now })
      ∧ (Fail st now id e d).schedules = st.schedules := by
  intro st now id e d d'
  exact ⟨rfl, rfl, Get_Fail st now id e d, rfl⟩

end LocalFlow
